import Mathlib

/-!
Verification of the sum-of-sales CSV pipeline (`src/script.js`).

Strings are modelled as lists of characters (`JStr`), JavaScript numbers as
an exact-rational idealisation (`JsFloat`) with explicit NaN and infinities.
Each definition mirrors the corresponding JavaScript function or code block.
-/

namespace SOS

attribute [local semireducible] Rat.add Rat.mul Rat.sub Rat.inv Rat.ofScientific

/-- JavaScript strings, modelled as lists of characters. -/
abbrev JStr := List Char

/-- Whitespace characters recognised by JavaScript trim / parseFloat
(ASCII whitespace, NBSP, BOM, and the Unicode line separators). -/
def isJsWhitespace (c : Char) : Bool :=
  c = ' ' || c = '\t' || c = '\n' || c = '\r' ||
  c = Char.ofNat 11 || c = Char.ofNat 12 ||
  c = Char.ofNat 160 || c = Char.ofNat 65279 ||
  c = Char.ofNat 8232 || c = Char.ofNat 8233

/-- Boolean prefix test on character lists (models String.prototype.startsWith). -/
def prefixOfB : JStr → JStr → Bool
  | [], _ => true
  | _ :: _, [] => false
  | a :: as, b :: bs => a = b && prefixOfB as bs

/-- Boolean suffix test on character lists (models String.prototype.endsWith). -/
def suffixOfB (pat s : JStr) : Bool :=
  prefixOfB pat.reverse s.reverse

/-- Boolean substring-containment test (models String.prototype.includes). -/
def containsSub (needle : JStr) : JStr → Bool
  | [] => prefixOfB needle []
  | c :: rest => prefixOfB needle (c :: rest) || containsSub needle rest

/-- ASCII lower-casing of a string (models String.prototype.toLowerCase on
the ASCII range used by this program). -/
def toLowerL (s : JStr) : JStr := s.map Char.toLower

/-- Number of occurrences of a character in a line: models
`(line.match(new RegExp(delim, "g")) || []).length` for a one-character,
non-metacharacter pattern. -/
def countChar (d : Char) (line : JStr) : Nat :=
  (line.filter (fun c => c = d)).length

/-- Splitting on a single separator character, with JavaScript
`String.prototype.split` semantics: the empty string splits to `[""]`,
separators at the ends produce empty fields. -/
def splitOnChar (sep : Char) : JStr → List JStr
  | [] => [[]]
  | c :: rest =>
    match splitOnChar sep rest with
    | [] => [[]]
    | f :: fs => if c = sep then [] :: f :: fs else (c :: f) :: fs

/-- JavaScript `String.prototype.substring(a, b)`: both indices are clamped
to the string length and swapped when out of order. -/
def jsSubstring (s : JStr) (a b : Nat) : JStr :=
  let n := s.length
  let a2 := min a n
  let b2 := min b n
  let lo := min a2 b2
  let hi := max a2 b2
  (s.drop lo).take (hi - lo)

/-- Normalisation of line endings: `text.replace(/\r\n/g, "\n").replace(/\r/g, "\n")`,
i.e. every CRLF and every remaining lone CR becomes LF. -/
def normalizeNewlines : JStr → JStr
  | [] => []
  | '\r' :: '\n' :: rest => '\n' :: normalizeNewlines rest
  | '\r' :: rest => '\n' :: normalizeNewlines rest
  | c :: rest => c :: normalizeNewlines rest

/-- A JavaScript number as observed by this program: NaN, a signed infinity,
or a finite value idealised as an exact rational. -/
inductive JsFloat where
  | nan : JsFloat
  | inf (neg : Bool) : JsFloat
  | fin (q : ℚ) : JsFloat
deriving DecidableEq

/-- The isNaN test on a JsFloat. -/
def jsIsNaN : JsFloat → Bool
  | .nan => true
  | _ => false

/-- JavaScript addition restricted to the values this program produces
(no negative-zero distinction, exact rational arithmetic on finite values). -/
def jsAdd : JsFloat → JsFloat → JsFloat
  | .nan, _ => .nan
  | _, .nan => .nan
  | .inf n1, .inf n2 => if n1 = n2 then .inf n1 else .nan
  | .inf n, .fin _ => .inf n
  | .fin _, .inf n => .inf n
  | .fin a, .fin b => .fin (a + b)

/-- ASCII decimal-digit test. -/
def isDigitC (c : Char) : Bool := 48 ≤ c.toNat && c.toNat ≤ 57

/-- Value of a list of ASCII digits, most significant first. -/
def digitsToNat (ds : JStr) : Nat :=
  ds.foldl (fun a c => 10 * a + (c.toNat - 48)) 0

/-- JavaScript `parseFloat`: skip leading whitespace, take the longest prefix
that is a signed decimal literal (`Infinity`, digits, optional fraction,
optional exponent); NaN when no such prefix exists.  Finite results are exact
rationals rather than IEEE doubles. -/
def jsParseFloat (s : JStr) : JsFloat :=
  let s1 := s.dropWhile isJsWhitespace
  let signAndRest : Bool × JStr :=
    match s1 with
    | '-' :: r => (true, r)
    | '+' :: r => (false, r)
    | _ => (false, s1)
  let neg := signAndRest.1
  let s2 := signAndRest.2
  if prefixOfB ("Infinity".toList) s2 then .inf neg
  else
    let intD := s2.takeWhile isDigitC
    let r1 := s2.dropWhile isDigitC
    let fracAndRest : JStr × JStr :=
      match r1 with
      | '.' :: r => (r.takeWhile isDigitC, r.dropWhile isDigitC)
      | _ => ([], r1)
    let fracD := fracAndRest.1
    let r2 := fracAndRest.2
    if intD.isEmpty && fracD.isEmpty then .nan
    else
      let expPart : Bool × JStr :=
        match r2 with
        | 'e' :: '-' :: r => (true, r.takeWhile isDigitC)
        | 'e' :: '+' :: r => (false, r.takeWhile isDigitC)
        | 'e' :: r => (false, r.takeWhile isDigitC)
        | 'E' :: '-' :: r => (true, r.takeWhile isDigitC)
        | 'E' :: '+' :: r => (false, r.takeWhile isDigitC)
        | 'E' :: r => (false, r.takeWhile isDigitC)
        | _ => (false, [])
      let eneg := expPart.1
      let eD := expPart.2
      let mant : ℚ :=
        (digitsToNat intD : ℚ) + (digitsToNat fracD : ℚ) / (10 : ℚ) ^ fracD.length
      let mag : ℚ :=
        if eD.isEmpty then mant
        else if eneg then mant / (10 : ℚ) ^ digitsToNat eD
        else mant * (10 : ℚ) ^ digitsToNat eD
      .fin (if neg then -mag else mag)

/-- Per-field quote handling from `parseCsv`: if the field starts and ends with
a double quote, `field.substring(1, field.length - 1).replace(/""/g, '"')`,
otherwise the field unchanged. -/
def collapseQuotes : JStr → JStr
  | '"' :: '"' :: rest => '"' :: collapseQuotes rest
  | c :: rest => c :: collapseQuotes rest
  | [] => []

/-- The quote-stripping step applied to each split field in `parseCsv`. -/
def unquoteField (field : JStr) : JStr :=
  if prefixOfB ['"'] field && suffixOfB ['"'] field then
    collapseQuotes (jsSubstring field 1 (field.length - 1))
  else field

/-- Delimiter detection from `parseCsv`: fold over the candidates
`[",", ";", "\t"]` keeping the first candidate whose occurrence count in the
given line strictly exceeds the running maximum (initially comma with count 0). -/
def detectDelimiter (line : JStr) : Char :=
  (([',', ';', '\t'] : List Char).foldl
    (fun st d =>
      let c := countChar d line
      if c > st.2 then (d, c) else st)
    (',', 0)).1

/-- The parsed table produced by `parseCsv`.  `headers` is `some hs` when the
JavaScript object carries a `headers` field (a truthy array, possibly empty)
and `none` when the field is absent (`undefined`, falsy). -/
structure ParsedTable where
  headers : Option (List JStr)
  rows : List (List JStr)
deriving DecidableEq

/-- The nonblank lines of the normalised text:
`text.split("\n").filter(line => line.trim() !== "")`. -/
def nonblankLines (text : JStr) : List JStr :=
  (splitOnChar '\n' (normalizeNewlines text)).filter (fun l => !(l.all isJsWhitespace))

/-- Splitting one line into fields with the chosen delimiter and unquoting each. -/
def parseLine (delim : Char) (line : JStr) : List JStr :=
  (splitOnChar delim line).map unquoteField

/-- The `parseCsv` function of `src/script.js`: normalise line endings, drop
blank lines (returning `{headers: [], rows: []}` when none remain), detect the
delimiter from the first line, split every line into unquoted fields, and
classify the first row as headers exactly when every one of its fields fails
`parseFloat`. -/
def parseCsv (text : JStr) : ParsedTable :=
  match nonblankLines text with
  | [] => ⟨some [], []⟩
  | l0 :: ls =>
    let delim := detectDelimiter l0
    let r0 := parseLine delim l0
    let rest := ls.map (parseLine delim)
    if r0.all (fun cell => jsIsNaN (jsParseFloat cell)) then ⟨some r0, rest⟩
    else ⟨none, r0 :: rest⟩

/-- JavaScript `Array.prototype.findIndex`: the index of the first element
satisfying the predicate, or -1. -/
def jsFindIndex {α : Type} (p : α → Bool) (l : List α) : Int :=
  match l.findIdx? p with
  | some i => (i : Int)
  | none => -1

/-- The header predicate from `init`:
`header.toLowerCase().includes("sales") || header.toLowerCase().includes("sale")`. -/
def salesHeaderPred (h : JStr) : Bool :=
  containsSub ("sales".toList) (toLowerL h) || containsSub ("sale".toList) (toLowerL h)

/-- `parseFloat(row[i])`: an out-of-range access yields `undefined`, whose
parse is NaN. -/
def cellParse (row : List JStr) (i : Nat) : JsFloat :=
  match row.get? i with
  | some f => jsParseFloat f
  | none => .nan

/-- The numeric-column fallback loop from `init`: when there is at least one
row, scan column indices `0 ... rows[0].length - 1` and take the first index at
which every row's field parses; -1 when the scan fails or there are no rows. -/
def numericColIdx (rows : List (List JStr)) : Int :=
  match rows with
  | [] => -1
  | r0 :: _ =>
    match (List.range r0.length).find?
        (fun i => rows.all (fun row => !(jsIsNaN (cellParse row i)))) with
    | some i => (i : Int)
    | none => -1

/-- The sales-column identification of `init`: start at -1, use `findIndex`
over the headers when the `headers` field is truthy, and fall back to the
numeric-column scan when the index is still -1. -/
def findSalesIdx (headers? : Option (List JStr)) (rows : List (List JStr)) : Int :=
  let byHeader : Int :=
    match headers? with
    | some hs => jsFindIndex salesHeaderPred hs
    | none => -1
  if byHeader = -1 then numericColIdx rows else byHeader

/-- The aggregation loop of `init`: fold over the rows, adding the parse of the
field at the chosen index whenever it is not NaN, starting from 0. -/
def totalSalesLoop (rows : List (List JStr)) (i : Nat) : JsFloat :=
  rows.foldl
    (fun acc row =>
      let v := cellParse row i
      if jsIsNaN v then acc else jsAdd acc v)
    (.fin 0)

/-- Two-digit zero-padding for the fractional part of `toFixed(2)`. -/
def padTwo (n : Nat) : String :=
  if n < 10 then "0" ++ Nat.repr n else Nat.repr n

/-- `Number.prototype.toFixed(2)` on a finite value: round to the nearest
multiple of 1/100, ties toward positive infinity, and print with exactly two
fractional digits. -/
def toFixed2Rat (q : ℚ) : String :=
  let n : ℤ := ⌊q * 100 + 1 / 2⌋
  if n < 0 then "-" ++ Nat.repr (n.natAbs / 100) ++ "." ++ padTwo (n.natAbs % 100)
  else Nat.repr (n.natAbs / 100) ++ "." ++ padTwo (n.natAbs % 100)

/-- `toFixed(2)` on a JsFloat. -/
def toFixed2 : JsFloat → String
  | .nan => "NaN"
  | .inf neg => if neg then "-Infinity" else "Infinity"
  | .fin q => toFixed2Rat q

/-- The failure modes of the pipeline stages modelled here, one constructor per
distinct `throw` site reachable from the decode and aggregation stages. -/
inductive PipeErr where
  | invalidDataUrl : PipeErr
  | malformedInlineUrl : PipeErr
  | unsupportedMediaType : PipeErr
  | base64DecodeError : PipeErr
  | percentDecodeError : PipeErr
  | noSalesColumn : PipeErr
deriving DecidableEq

instance {ε α : Type} [DecidableEq ε] [DecidableEq α] : DecidableEq (Except ε α) := fun a b =>
  match a, b with
  | .error e1, .error e2 =>
    if h : e1 = e2 then .isTrue (by rw [h]) else .isFalse (by intro hc; cases hc; exact h rfl)
  | .error _, .ok _ => .isFalse (by intro hc; cases hc)
  | .ok _, .error _ => .isFalse (by intro hc; cases hc)
  | .ok a1, .ok a2 =>
    if h : a1 = a2 then .isTrue (by rw [h]) else .isFalse (by intro hc; cases hc; exact h rfl)

/-- The pipeline from decoded CSV text to the displayed result string
(`init` from the `parseCsv` call onward): parse, identify the sales column
(throwing when none is found), aggregate, and format with `toFixed(2)`. -/
def pipelineFromText (text : JStr) : Except PipeErr String :=
  let t := parseCsv text
  let idx := findSalesIdx t.headers t.rows
  if idx = -1 then .error .noSalesColumn
  else .ok (toFixed2 (totalSalesLoop t.rows idx.toNat))

/-- The record returned by `parseDataUrl`. -/
structure DataUrlParts where
  mime : JStr
  isBase64 : Bool
  payload : JStr
deriving DecidableEq

/-- The `parseDataUrl` function of `src/script.js`: require the `data:` prefix
and a comma, split the header (the substring between the scheme and the first
comma) on `;`, default the media type to `text/plain` when the first segment
is empty, and set the base64 flag when any segment equals `base64`. -/
def parseDataUrl (url : JStr) : Except PipeErr DataUrlParts :=
  if !(prefixOfB ("data:".toList) url) then .error .invalidDataUrl
  else
    match url.findIdx? (fun c => c = ',') with
    | none => .error .malformedInlineUrl
    | some ci =>
      let header := jsSubstring url 5 ci
      let payload := url.drop (ci + 1)
      let parts := splitOnChar ';' header
      let mime :=
        match parts with
        | [] => "text/plain".toList
        | m :: _ => if m.isEmpty then "text/plain".toList else m
      let isB64 := parts.contains ("base64".toList)
      .ok ⟨mime, isB64, payload⟩

/-- ASCII whitespace stripped by the forgiving-base64 algorithm behind `atob`. -/
def isAsciiB64Ws (c : Char) : Bool :=
  c = ' ' || c = '\t' || c = '\n' || c = '\r' || c = Char.ofNat 12

/-- Value of one base64 alphabet character. -/
def b64Val (c : Char) : Option Nat :=
  if 65 ≤ c.toNat && c.toNat ≤ 90 then some (c.toNat - 65)
  else if 97 ≤ c.toNat && c.toNat ≤ 122 then some (c.toNat - 71)
  else if 48 ≤ c.toNat && c.toNat ≤ 57 then some (c.toNat + 4)
  else if c = '+' then some 62
  else if c = '/' then some 63
  else none

/-- Base64 chunk decoding: groups of four characters give three bytes, a final
group of two or three gives one or two bytes, and a final group of one (or any
character outside the alphabet) is an error. -/
def b64Chunks : JStr → Except Unit (List Nat)
  | [] => .ok []
  | [_] => .error ()
  | [c1, c2] =>
    match b64Val c1, b64Val c2 with
    | some v1, some v2 => .ok [v1 * 4 + v2 / 16]
    | _, _ => .error ()
  | [c1, c2, c3] =>
    match b64Val c1, b64Val c2, b64Val c3 with
    | some v1, some v2, some v3 => .ok [v1 * 4 + v2 / 16, (v2 % 16) * 16 + v3 / 4]
    | _, _, _ => .error ()
  | c1 :: c2 :: c3 :: c4 :: rest =>
    match b64Val c1, b64Val c2, b64Val c3, b64Val c4, b64Chunks rest with
    | some v1, some v2, some v3, some v4, .ok bs =>
      .ok ((v1 * 4 + v2 / 16) :: ((v2 % 16) * 16 + v3 / 4) :: ((v3 % 4) * 64 + v4) :: bs)
    | _, _, _, _, _ => .error ()

/-- Strip one or two trailing `=` characters. -/
def stripTrailingEq (s : JStr) : JStr :=
  match s.reverse with
  | '=' :: '=' :: rest => rest.reverse
  | '=' :: rest => rest.reverse
  | _ => s

/-- `atob`: forgiving base64 decode to a byte sequence; ASCII whitespace is
removed, `=` padding is stripped when the length is a multiple of four, and
remaining non-alphabet characters or a leftover length of one are errors. -/
def atob (s : JStr) : Except Unit (List Nat) :=
  let cleaned := s.filter (fun c => !(isAsciiB64Ws c))
  let stripped := if cleaned.length % 4 = 0 then stripTrailingEq cleaned else cleaned
  b64Chunks stripped

/-- The Unicode replacement character emitted by a lenient UTF-8 decode. -/
def replChar : Char := Char.ofNat 65533

/-- UTF-8 continuation-byte test. -/
def isCont (b : Nat) : Bool := 128 ≤ b && b ≤ 191

/-- Range check for the first continuation byte of a three-byte sequence
(tightened for lead bytes 0xE0 and 0xED). -/
def utf8Cont2Ok (b b2 : Nat) : Bool :=
  if b = 224 then 160 ≤ b2 && b2 ≤ 191
  else if b = 237 then 128 ≤ b2 && b2 ≤ 159
  else isCont b2

/-- Range check for the first continuation byte of a four-byte sequence
(tightened for lead bytes 0xF0 and 0xF4). -/
def utf8Cont3Ok (b b2 : Nat) : Bool :=
  if b = 240 then 144 ≤ b2 && b2 ≤ 191
  else if b = 244 then 128 ≤ b2 && b2 ≤ 143
  else isCont b2

/-- Lenient UTF-8 decoding as performed by `new TextDecoder().decode`:
malformed sequences become U+FFFD, with unconsumed offending bytes
reprocessed, and never an error. -/
def utf8Lenient : List Nat → JStr
  | [] => []
  | b :: rest =>
    if b < 128 then Char.ofNat b :: utf8Lenient rest
    else if 194 ≤ b && b ≤ 223 then
      match rest with
      | [] => [replChar]
      | b2 :: rest2 =>
        if isCont b2 then Char.ofNat ((b - 192) * 64 + (b2 - 128)) :: utf8Lenient rest2
        else replChar :: utf8Lenient (b2 :: rest2)
    else if 224 ≤ b && b ≤ 239 then
      match rest with
      | [] => [replChar]
      | b2 :: rest2 =>
        if utf8Cont2Ok b b2 then
          match rest2 with
          | [] => [replChar]
          | b3 :: rest3 =>
            if isCont b3 then
              Char.ofNat ((b - 224) * 4096 + (b2 - 128) * 64 + (b3 - 128)) :: utf8Lenient rest3
            else replChar :: utf8Lenient (b3 :: rest3)
        else replChar :: utf8Lenient (b2 :: rest2)
    else if 240 ≤ b && b ≤ 244 then
      match rest with
      | [] => [replChar]
      | b2 :: rest2 =>
        if utf8Cont3Ok b b2 then
          match rest2 with
          | [] => [replChar]
          | b3 :: rest3 =>
            if isCont b3 then
              match rest3 with
              | [] => [replChar]
              | b4 :: rest4 =>
                if isCont b4 then
                  Char.ofNat
                      ((b - 240) * 262144 + (b2 - 128) * 4096 + (b3 - 128) * 64 + (b4 - 128)) ::
                    utf8Lenient rest4
                else replChar :: utf8Lenient (b4 :: rest4)
            else replChar :: utf8Lenient (b3 :: rest3)
        else replChar :: utf8Lenient (b2 :: rest2)
    else replChar :: utf8Lenient rest

/-- `decodeBase64ToText` from `src/script.js`: `atob` into bytes, then a
lenient UTF-8 decode; any `atob` failure is caught and rethrown as the
base64-decode error. -/
def decodeBase64ToText (b64 : JStr) : Except PipeErr JStr :=
  match atob b64 with
  | .error _ => .error .base64DecodeError
  | .ok bytes => .ok (utf8Lenient bytes)

/-- Value of one hexadecimal digit. -/
def hexVal (c : Char) : Option Nat :=
  if 48 ≤ c.toNat && c.toNat ≤ 57 then some (c.toNat - 48)
  else if 65 ≤ c.toNat && c.toNat ≤ 70 then some (c.toNat - 55)
  else if 97 ≤ c.toNat && c.toNat ≤ 102 then some (c.toNat - 87)
  else none

/-- One unit of a percent-encoded string: a literal character or an escaped byte. -/
inductive PctTok where
  | ch (c : Char) : PctTok
  | byte (b : Nat) : PctTok
deriving DecidableEq

/-- First pass of `decodeURIComponent`: each `%` must be followed by two hex
digits and yields a byte token; other characters pass through. -/
def pctTokens : JStr → Except Unit (List PctTok)
  | [] => .ok []
  | '%' :: c1 :: c2 :: rest =>
    match hexVal c1, hexVal c2, pctTokens rest with
    | some h1, some h2, .ok ts => .ok (.byte (h1 * 16 + h2) :: ts)
    | _, _, _ => .error ()
  | '%' :: _ => .error ()
  | c :: rest => (pctTokens rest).map (fun ts => .ch c :: ts)

/-- Second pass of `decodeURIComponent`: escaped bytes must form strictly valid
UTF-8 sequences (whose continuation bytes are themselves escapes); anything
else is an error. -/
def pctAssemble : List PctTok → Except Unit JStr
  | [] => .ok []
  | .ch c :: rest => (pctAssemble rest).map (fun s => c :: s)
  | .byte b :: rest =>
    if b < 128 then (pctAssemble rest).map (fun s => Char.ofNat b :: s)
    else if 194 ≤ b && b ≤ 223 then
      match rest with
      | .byte b2 :: rest2 =>
        if isCont b2 then
          (pctAssemble rest2).map (fun s => Char.ofNat ((b - 192) * 64 + (b2 - 128)) :: s)
        else .error ()
      | _ => .error ()
    else if 224 ≤ b && b ≤ 239 then
      match rest with
      | .byte b2 :: .byte b3 :: rest3 =>
        if utf8Cont2Ok b b2 && isCont b3 then
          (pctAssemble rest3).map
            (fun s => Char.ofNat ((b - 224) * 4096 + (b2 - 128) * 64 + (b3 - 128)) :: s)
        else .error ()
      | _ => .error ()
    else if 240 ≤ b && b ≤ 244 then
      match rest with
      | .byte b2 :: .byte b3 :: .byte b4 :: rest4 =>
        if utf8Cont3Ok b b2 && isCont b3 && isCont b4 then
          (pctAssemble rest4).map
            (fun s =>
              Char.ofNat
                  ((b - 240) * 262144 + (b2 - 128) * 4096 + (b3 - 128) * 64 + (b4 - 128)) :: s)
        else .error ()
      | _ => .error ()
    else .error ()

/-- JavaScript `decodeURIComponent`: percent-unescape and strictly UTF-8
decode, throwing on malformed escapes or malformed byte sequences. -/
def decodeURIComponentJs (s : JStr) : Except Unit JStr :=
  match pctTokens s with
  | .error _ => .error ()
  | .ok ts => pctAssemble ts

/-- The media-type gate of `init`:
`mime.includes("csv") || mime.includes("text")` (case-sensitive substrings). -/
def mimeOk (mime : JStr) : Bool :=
  containsSub ("csv".toList) mime || containsSub ("text".toList) mime

/-- The payload-decoding stage of `init` (lines 112-119): reject media types
containing neither `csv` nor `text`, then base64-decode or percent-decode the
payload according to the flag. -/
def decodeStage (p : DataUrlParts) : Except PipeErr JStr :=
  if !(mimeOk p.mime) then .error .unsupportedMediaType
  else if p.isBase64 then decodeBase64ToText p.payload
  else
    match decodeURIComponentJs p.payload with
    | .error _ => .error .percentDecodeError
    | .ok t => .ok t

/-! ## Spec-side definitions

These definitions follow the wording of the specification (not the code) and
exist to be compared against the code-derived definitions above. -/

/-- Modelled from the spec (claim C2 wording): accept a media type when it
contains `csv` or `text` as a case-insensitive substring. -/
def specMimeAcceptsCI (mime : JStr) : Bool :=
  containsSub ("csv".toList) (toLowerL mime) || containsSub ("text".toList) (toLowerL mime)

/-- Spec 4.5, primary strategy: when headers are present, the index of the
first header whose lowercased text contains `sales` or `sale`. -/
def specHeaderIdx (headers? : Option (List JStr)) : Option Nat :=
  match headers? with
  | some hs => hs.findIdx? salesHeaderPred
  | none => none

/-- Spec 4.5, fallback strategy: scanning columns left to right, the first
column index at which every row's field parses as a number.  Missing fields
(ragged rows) do not parse, so the scan range of the first row's width loses
no candidates. -/
def specNumericIdx (rows : List (List JStr)) : Option Nat :=
  match rows with
  | [] => none
  | r0 :: _ =>
    (List.range r0.length).find? (fun i => rows.all (fun row => !(jsIsNaN (cellParse row i))))

/-- The largest candidate-delimiter count within a line. -/
def maxDelimCount (line : JStr) : Nat :=
  max (countChar ',' line) (max (countChar ';' line) (countChar '\t' line))

/-- The earliest candidate (in the order comma, semicolon, tab) whose count in
the line attains the maximum. -/
def firstMaxDelim (line : JStr) : Char :=
  (([',', ';', '\t'] : List Char).find? (fun d => countChar d line == maxDelimCount line)).getD ','

/-! ## Claim theorems -/

/-- C7: for the input text
`"Products,Sales\nPhones,1000\nBooks,123.45\nNotebooks,111.11\n"`, parsing
yields headers `["Products", "Sales"]` and exactly the three data rows shown,
the Sales-named column (index 1) is selected, aggregation over it yields the
exact value 1000 + 123.45 + 111.11 = 1234.56, and the pipeline displays the
string `"1234.56"` (two decimal places). -/
theorem c7_concrete_pipeline :
    parseCsv ("Products,Sales\nPhones,1000\nBooks,123.45\nNotebooks,111.11\n".toList) =
      ⟨some ["Products".toList, "Sales".toList],
        [["Phones".toList, "1000".toList], ["Books".toList, "123.45".toList],
          ["Notebooks".toList, "111.11".toList]]⟩ ∧
    findSalesIdx (some ["Products".toList, "Sales".toList])
        [["Phones".toList, "1000".toList], ["Books".toList, "123.45".toList],
          ["Notebooks".toList, "111.11".toList]] = 1 ∧
    totalSalesLoop
        [["Phones".toList, "1000".toList], ["Books".toList, "123.45".toList],
          ["Notebooks".toList, "111.11".toList]] 1 = .fin (1234.56 : ℚ) ∧
    (1000 : ℚ) + 123.45 + 111.11 = 1234.56 ∧
    pipelineFromText ("Products,Sales\nPhones,1000\nBooks,123.45\nNotebooks,111.11\n".toList) =
      .ok "1234.56" :=
  ⟨by decide, by decide, by decide, by decide, by decide⟩

/-- C1 counterexample: on empty input, `parseCsv` returns a present (truthy)
but empty headers array rather than absent headers, and the pipeline ends in
the no-sales-column error rather than displaying 0 through the success path. -/
theorem c1_counterexample :
    parseCsv ([] : JStr) = ⟨some [], []⟩ ∧
    pipelineFromText ([] : JStr) = .error .noSalesColumn ∧
    pipelineFromText ([] : JStr) ≠ .ok (toFixed2 (.fin 0)) :=
  ⟨by decide, by decide, by decide⟩

/-- C2 counterexample: the media type `TEXT/CSV` contains `csv` and `text`
case-insensitively, yet the decode stage rejects it with the
unsupported-media-type error, so the substring check is not case-insensitive. -/
theorem c2_counterexample :
    specMimeAcceptsCI ("TEXT/CSV".toList) = true ∧
    decodeStage ⟨"TEXT/CSV".toList, false, "a".toList⟩ = .error .unsupportedMediaType :=
  ⟨by decide, by decide⟩

/-- C3 counterexample: for the first line `a;b<TAB>c` the comma count is 0 and
the semicolon and tab counts are both 1, and the detected delimiter is the
semicolon, not the comma the claim predicts for this tie. -/
theorem c3_counterexample :
    countChar ',' ("a;b\tc".toList) = 0 ∧
    countChar ';' ("a;b\tc".toList) = 1 ∧
    countChar '\t' ("a;b\tc".toList) = 1 ∧
    detectDelimiter ("a;b\tc".toList) = ';' ∧
    (';' : Char) ≠ ',' :=
  ⟨by decide, by decide, by decide, by decide, by decide⟩

/-- C4 counterexample: in `data:base64,QQ` the token `base64` is the only
`;`-separated segment, hence not among the segments after the first, yet the
resolver sets the base64 flag (and takes `base64` as the media type as well). -/
theorem c4_counterexample :
    parseDataUrl ("data:base64,QQ".toList) = .ok ⟨"base64".toList, true, "QQ".toList⟩ ∧
    ("base64".toList) ∉ (splitOnChar ';' ("base64".toList)).tail :=
  ⟨by decide, by decide⟩

/-- C2 amended: the payload decoding stage fails with the
unsupported-media-type error exactly when the media type contains neither
`csv` nor `text` as a case-sensitive substring; the base64 and percent
decoders never produce that error. -/
theorem c2_amended_media_gate (p : DataUrlParts) :
    decodeStage p = .error .unsupportedMediaType ↔
      (containsSub ("csv".toList) p.mime = false ∧ containsSub ("text".toList) p.mime = false) := by
  unfold decodeStage mimeOk
  cases hcsv : containsSub ("csv".toList) p.mime <;>
    cases htext : containsSub ("text".toList) p.mime <;> simp
  · cases hb : p.isBase64 <;> simp [hb]
    · cases hd : decodeURIComponentJs p.payload <;> simp [hd]
    · unfold decodeBase64ToText
      cases ha : atob p.payload <;> simp [ha]
  · cases hb : p.isBase64 <;> simp [hb]
    · cases hd : decodeURIComponentJs p.payload <;> simp [hd]
    · unfold decodeBase64ToText
      cases ha : atob p.payload <;> simp [ha]
  · cases hb : p.isBase64 <;> simp [hb]
    · cases hd : decodeURIComponentJs p.payload <;> simp [hd]
    · unfold decodeBase64ToText
      cases ha : atob p.payload <;> simp [ha]

/-- C3 amended: occurrences of comma, semicolon and tab are counted within the
first line only, and the chosen delimiter is the earliest candidate in the
order comma, semicolon, tab whose count attains the maximum (so all-zero or
any tie involving the comma at the maximum yields comma, while a
semicolon-tab tie above the comma count yields semicolon). -/
theorem c3_amended_delimiter (line : JStr) :
    detectDelimiter line = firstMaxDelim line := by
  unfold detectDelimiter firstMaxDelim maxDelimCount
  simp only [List.foldl, List.find?]
  generalize countChar ',' line = a
  generalize countChar ';' line = b
  generalize countChar '\t' line = c
  have hstep1 : (if a > 0 then ((',' : Char), a) else ((',' : Char), 0)) = ((',' : Char), a) := by
    rcases Nat.eq_zero_or_pos a with h | h
    · subst h; simp
    · simp [h]
  rw [hstep1]
  dsimp only
  by_cases hb : b > a
  · rw [if_pos hb]
    dsimp only
    by_cases hc : c > b
    · rw [if_pos hc]
      have h1 : (a == a ⊔ (b ⊔ c)) = false := beq_eq_false_iff_ne.mpr (by omega)
      have h2 : (b == a ⊔ (b ⊔ c)) = false := beq_eq_false_iff_ne.mpr (by omega)
      have h3 : (c == a ⊔ (b ⊔ c)) = true := beq_iff_eq.mpr (by omega)
      rw [h1, h2, h3]
      rfl
    · rw [if_neg hc]
      have h1 : (a == a ⊔ (b ⊔ c)) = false := beq_eq_false_iff_ne.mpr (by omega)
      have h2 : (b == a ⊔ (b ⊔ c)) = true := beq_iff_eq.mpr (by omega)
      rw [h1, h2]
      rfl
  · rw [if_neg hb]
    dsimp only
    by_cases hc : c > a
    · rw [if_pos hc]
      have h1 : (a == a ⊔ (b ⊔ c)) = false := beq_eq_false_iff_ne.mpr (by omega)
      have h2 : (b == a ⊔ (b ⊔ c)) = false := beq_eq_false_iff_ne.mpr (by omega)
      have h3 : (c == a ⊔ (b ⊔ c)) = true := beq_iff_eq.mpr (by omega)
      rw [h1, h2, h3]
      rfl
    · rw [if_neg hc]
      have h1 : (a == a ⊔ (b ⊔ c)) = true := beq_iff_eq.mpr (by omega)
      rw [h1]
      rfl

/-- Line-ending normalisation maps whitespace-only text to whitespace-only text
(carriage returns become line feeds, both whitespace). -/
theorem normalizeNewlines_all_ws (text : JStr) (h : text.all isJsWhitespace = true) :
    (normalizeNewlines text).all isJsWhitespace = true := by
  induction text using normalizeNewlines.induct with
  | case1 => simp [normalizeNewlines]
  | case2 rest ih =>
    simp only [List.all_cons, Bool.and_eq_true] at h
    simp [normalizeNewlines, isJsWhitespace, ih h.2.2]
  | case3 rest hne ih =>
    simp only [List.all_cons, Bool.and_eq_true] at h
    simp [normalizeNewlines, isJsWhitespace, ih h.2]
  | case4 c rest hne hnr ih =>
    simp only [List.all_cons, Bool.and_eq_true] at h
    simp [normalizeNewlines, h.1, ih h.2]

/-- Every character of every piece produced by `splitOnChar` occurs in the
original string. -/
theorem splitOnChar_mem_subset (sep : Char) (s : JStr) :
    ∀ l ∈ splitOnChar sep s, ∀ c ∈ l, c ∈ s := by
  induction s with
  | nil =>
    intro l hl c hc
    simp [splitOnChar] at hl
    rw [hl] at hc
    simp at hc
  | cons x xs ih =>
    intro l hl c hc
    simp only [splitOnChar] at hl
    rcases hsp : splitOnChar sep xs with _ | ⟨f, fs⟩
    · rw [hsp] at hl
      simp at hl
      rw [hl] at hc
      simp at hc
    · rw [hsp] at hl
      dsimp only at hl
      by_cases hx : x = sep
      · rw [if_pos hx] at hl
        simp only [List.mem_cons] at hl
        rcases hl with hl | hl | hl
        · rw [hl] at hc; simp at hc
        · refine List.mem_cons_of_mem x (ih f ?_ c ?_)
          · rw [hsp]; exact List.mem_cons_self f fs
          · rw [hl] at hc; exact hc
        · refine List.mem_cons_of_mem x (ih l ?_ c hc)
          rw [hsp]; exact List.mem_cons_of_mem f hl
      · rw [if_neg hx] at hl
        simp only [List.mem_cons] at hl
        rcases hl with hl | hl
        · rw [hl] at hc
          rcases List.mem_cons.mp hc with hcx | hcf
          · rw [hcx]; exact List.mem_cons_self x xs
          · refine List.mem_cons_of_mem x (ih f ?_ c hcf)
            rw [hsp]; exact List.mem_cons_self f fs
        · refine List.mem_cons_of_mem x (ih l ?_ c hc)
          rw [hsp]; exact List.mem_cons_of_mem f hl

/-- Whitespace-only text has no nonblank lines. -/
theorem nonblankLines_of_all_ws (text : JStr) (h : text.all isJsWhitespace = true) :
    nonblankLines text = [] := by
  unfold nonblankLines
  rw [List.filter_eq_nil_iff]
  intro l hl
  have hall : ∀ c ∈ l, isJsWhitespace c = true := by
    intro c hc
    have hmem := splitOnChar_mem_subset '\n' (normalizeNewlines text) l hl c hc
    have hnorm := normalizeNewlines_all_ws text h
    exact List.all_eq_true.mp hnorm c hmem
  simp [List.all_eq_true.mpr hall]

/-- C1 amended: for empty or whitespace-only input, `parseCsv` yields a table
whose headers field is a present but empty array and whose rows are empty, and
the pipeline then fails with the no-sales-column error (the fallback scan is
skipped for zero rows), rather than displaying 0 through the success path. -/
theorem c1_amended_empty_input (text : JStr) (h : text.all isJsWhitespace = true) :
    parseCsv text = ⟨some [], []⟩ ∧ pipelineFromText text = .error .noSalesColumn := by
  have hnl := nonblankLines_of_all_ws text h
  constructor
  · unfold parseCsv
    rw [hnl]
  · unfold pipelineFromText parseCsv
    rw [hnl]
    rfl

/-- Witness for the amended C1 at the concrete whitespace-only input. -/
theorem c1_amended_witness :
    (" \n\t ".toList.all isJsWhitespace = true) ∧
      (parseCsv (" \n\t ".toList) = ⟨some [], []⟩ ∧
        pipelineFromText (" \n\t ".toList) = .error .noSalesColumn) :=
  ⟨by decide, c1_amended_empty_input (" \n\t ".toList) (by decide)⟩

/-- A list is a Boolean prefix of itself followed by anything. -/
theorem prefixOfB_append_self (l t : JStr) : prefixOfB l (l ++ t) = true := by
  induction l with
  | nil => rfl
  | cons x xs ih => simp [prefixOfB, ih]

/-- Index of the first comma: a comma-free prefix shifts it by its length. -/
theorem findIdx?_comma (pre rest : JStr) (h : (',' : Char) ∉ pre) :
    ∀ i : Nat, List.findIdx? (fun c => c = ',') (pre ++ ',' :: rest) i = some (pre.length + i) := by
  induction pre with
  | nil => intro i; simp [List.findIdx?_cons]
  | cons x xs ih =>
    intro i
    have hx : ¬(x = ',') := fun he => h (he ▸ List.mem_cons_self x xs)
    rw [List.cons_append, List.findIdx?_cons]
    simp only [hx, decide_eq_false_iff_not.mpr hx, Bool.false_eq_true, if_false]
    rw [ih (fun hm => h (List.mem_cons_of_mem x hm)) (i + 1)]
    simp [List.length_cons]
    omega

/-- The substring between the `data:` scheme and the comma is the header. -/
theorem jsSubstring_header (hh tl : JStr) :
    jsSubstring ("data:".toList ++ hh ++ [','] ++ tl) 5 (5 + hh.length) = hh := by
  unfold jsSubstring
  have hn : ("data:".toList ++ hh ++ [','] ++ tl).length = 5 + hh.length + 1 + tl.length := by
    simp
    omega
  dsimp only
  rw [hn]
  have h1 : min 5 (5 + hh.length + 1 + tl.length) = 5 := by omega
  have h2 : min (5 + hh.length) (5 + hh.length + 1 + tl.length) = 5 + hh.length := by omega
  rw [h1, h2]
  have h3 : min 5 (5 + hh.length) = 5 := by omega
  have h4 : max 5 (5 + hh.length) = 5 + hh.length := by omega
  rw [h3, h4]
  have h5 : ("data:".toList ++ hh ++ [','] ++ tl) = "data:".toList ++ (hh ++ ([','] ++ tl)) := by
    simp
  rw [h5]
  have h6 : ("data:".toList).length = 5 := by decide
  rw [← h6, List.drop_left]
  have h7 : 5 + hh.length - 5 = hh.length := by omega
  rw [h6, h7]
  exact List.take_left hh ([','] ++ tl)

/-- C4 amended: for a data URL with comma-free header, the base64 flag is set
if and only if the literal token `base64` appears among ALL the `;`-separated
segments of the header, including the first; a header whose only segment is
`base64` therefore does set the flag (while also being taken as the media
type). -/
theorem c4_amended_base64_flag (hh p : JStr) (hcomma : (',' : Char) ∉ hh) :
    ∃ parts, parseDataUrl ("data:".toList ++ hh ++ [','] ++ p) = .ok parts ∧
      (parts.isBase64 = true ↔ "base64".toList ∈ splitOnChar ';' hh) ∧
      parts.payload = p := by
  unfold parseDataUrl
  have hpre : prefixOfB ("data:".toList) ("data:".toList ++ hh ++ [','] ++ p) = true := by
    have h := prefixOfB_append_self ("data:".toList) (hh ++ ([','] ++ p))
    simpa using h
  rw [hpre]
  have hurl : "data:".toList ++ hh ++ [','] ++ p = ("data:".toList ++ hh) ++ (',' :: p) := by
    simp
  have hnoc : (',' : Char) ∉ ("data:".toList ++ hh) := by
    intro hm
    rcases List.mem_append.mp hm with hm | hm
    · simp at hm
    · exact hcomma hm
  have hfind : List.findIdx? (fun c => c = ',') ("data:".toList ++ hh ++ [','] ++ p) 0 =
      some (5 + hh.length) := by
    rw [hurl, findIdx?_comma ("data:".toList ++ hh) p hnoc 0]
    simp
    omega
  rw [hfind]
  dsimp only
  rw [jsSubstring_header hh p]
  have hdrop : List.drop (5 + hh.length + 1) ("data:".toList ++ hh ++ [','] ++ p) = p := by
    have hg : "data:".toList ++ hh ++ [','] ++ p = ("data:".toList ++ hh ++ [',']) ++ p := by
      simp
    have hlen : ("data:".toList ++ hh ++ [',']).length = 5 + hh.length + 1 := by
      simp
      omega
    rw [hg, ← hlen, List.drop_left]
  rw [hdrop]
  refine ⟨_, rfl, ?_, rfl⟩
  show ((splitOnChar ';' hh).contains ("base64".toList)) = true ↔ _
  exact List.elem_iff

/-- Witness for the amended C4 at a concrete data URL header. -/
theorem c4_amended_witness :
    ((',' : Char) ∉ ("text/csv;base64".toList)) ∧
      (∃ parts,
        parseDataUrl ("data:".toList ++ "text/csv;base64".toList ++ [','] ++ "QQ".toList) =
          .ok parts ∧
        (parts.isBase64 = true ↔ "base64".toList ∈ splitOnChar ';' ("text/csv;base64".toList)) ∧
        parts.payload = "QQ".toList) :=
  ⟨by decide, c4_amended_base64_flag _ _ (by decide)⟩

/-- C5: column identification selects the first sales-named header index when
one exists; when no header matched (including absent headers) it selects the
first column index at which every row's field parses as a number; and it
signals the no-sales-column failure (index -1, leading to the thrown error)
exactly when neither strategy yields an index. -/
theorem c5_column_identification (headers? : Option (List JStr)) (rows : List (List JStr)) :
    (∀ j, specHeaderIdx headers? = some j → findSalesIdx headers? rows = (j : Int)) ∧
    (specHeaderIdx headers? = none →
      ∀ j, specNumericIdx rows = some j → findSalesIdx headers? rows = (j : Int)) ∧
    (findSalesIdx headers? rows = -1 ↔
      specHeaderIdx headers? = none ∧ specNumericIdx rows = none) := by
  have hnum : numericColIdx rows = (match specNumericIdx rows with
      | some i => (i : Int)
      | none => -1) := by
    unfold numericColIdx specNumericIdx
    cases rows with
    | nil => rfl
    | cons r0 rs => rfl
  unfold findSalesIdx
  cases headers? with
  | none =>
    dsimp only
    rw [if_pos (rfl : (-1 : Int) = -1)]
    rw [hnum]
    cases hn : specNumericIdx rows with
    | some i =>
      dsimp only
      refine ⟨?_, ?_, ?_⟩
      · intro j hj
        simp [specHeaderIdx] at hj
      · intro _ j hj
        injection hj with he
        rw [he]
      · constructor
        · intro habs
          have h0 : (0 : Int) ≤ (i : Int) := Int.natCast_nonneg i
          rw [habs] at h0
          norm_num at h0
        · intro h2
          exact absurd h2.2 (by simp)
    | none =>
      dsimp only
      refine ⟨?_, ?_, ?_⟩
      · intro j hj
        simp [specHeaderIdx] at hj
      · intro _ j hj
        exact Option.noConfusion hj
      · constructor
        · intro _
          exact ⟨by simp [specHeaderIdx], rfl⟩
        · intro _
          rfl
  | some hs =>
    dsimp only
    cases hf : hs.findIdx? salesHeaderPred with
    | some j =>
      have hji : jsFindIndex salesHeaderPred hs = (j : Int) := by
        unfold jsFindIndex
        rw [hf]
      rw [hji]
      rw [if_neg (by omega : ¬((j : Int) = -1))]
      refine ⟨?_, ?_, ?_⟩
      · intro j' hj'
        simp only [specHeaderIdx] at hj'
        rw [hf] at hj'
        injection hj' with he
        rw [he]
      · intro hnone
        simp only [specHeaderIdx] at hnone
        rw [hf] at hnone
        exact Option.noConfusion hnone
      · constructor
        · intro habs
          exact absurd habs (by omega)
        · intro h2
          have h1 := h2.1
          simp only [specHeaderIdx] at h1
          rw [hf] at h1
          exact Option.noConfusion h1
    | none =>
      have hji : jsFindIndex salesHeaderPred hs = -1 := by
        unfold jsFindIndex
        rw [hf]
      rw [hji]
      rw [if_pos (rfl : (-1 : Int) = -1)]
      rw [hnum]
      cases hn : specNumericIdx rows with
      | some i =>
        dsimp only
        refine ⟨?_, ?_, ?_⟩
        · intro j' hj'
          simp only [specHeaderIdx] at hj'
          rw [hf] at hj'
          exact Option.noConfusion hj'
        · intro _ j' hj'
          injection hj' with he
          rw [he]
        · constructor
          · intro habs
            have h0 : (0 : Int) ≤ (i : Int) := Int.natCast_nonneg i
            rw [habs] at h0
            norm_num at h0
          · intro h2
            exact absurd h2.2 (by simp)
      | none =>
        dsimp only
        refine ⟨?_, ?_, ?_⟩
        · intro j' hj'
          simp only [specHeaderIdx] at hj'
          rw [hf] at hj'
          exact Option.noConfusion hj'
        · intro _ j' hj'
          exact Option.noConfusion hj'
        · constructor
          · intro _
            refine ⟨?_, rfl⟩
            simp only [specHeaderIdx]
            rw [hf]
          · intro _
            rfl

/-- Witness for C5 at a concrete header list and row set. -/
theorem c5_witness :
    specHeaderIdx (some ["Products".toList, "Sales".toList]) = some 1 ∧
      findSalesIdx (some ["Products".toList, "Sales".toList]) [["1".toList]] = 1 :=
  ⟨by decide,
    (c5_column_identification (some ["Products".toList, "Sales".toList]) [["1".toList]]).1 1
      (by decide)⟩

/-- C6: when the input has at least one nonblank line, the first parsed row is
classified as a header row (removed from the rows and stored separately)
exactly when every one of its fields fails the float parse; if any field of
the first row parses (one numeric-looking field suffices), headers are absent
and all rows, the first included, are data rows. -/
theorem c6_header_detection (text : JStr) (l0 : JStr) (ls : List JStr)
    (h : nonblankLines text = l0 :: ls) :
    ((parseLine (detectDelimiter l0) l0).all (fun cell => jsIsNaN (jsParseFloat cell)) = true →
      parseCsv text =
        ⟨some (parseLine (detectDelimiter l0) l0), ls.map (parseLine (detectDelimiter l0))⟩) ∧
    ((parseLine (detectDelimiter l0) l0).all (fun cell => jsIsNaN (jsParseFloat cell)) = false →
      parseCsv text =
        ⟨none, parseLine (detectDelimiter l0) l0 :: ls.map (parseLine (detectDelimiter l0))⟩) := by
  unfold parseCsv
  rw [h]
  dsimp only
  constructor
  · intro ha
    rw [if_pos ha]
  · intro ha
    rw [if_neg (by rw [ha]; exact Bool.false_ne_true)]

/-- Witness for C6 at a concrete two-line input whose first row is all
non-numeric. -/
theorem c6_witness :
    nonblankLines ("a,b\n1,2".toList) = ["a,b".toList, "1,2".toList] ∧
      parseCsv ("a,b\n1,2".toList) =
        ⟨some (parseLine (detectDelimiter ("a,b".toList)) ("a,b".toList)),
          ["1,2".toList].map (parseLine (detectDelimiter ("a,b".toList)))⟩ :=
  ⟨by decide,
    (c6_header_detection ("a,b\n1,2".toList) ("a,b".toList) ["1,2".toList] (by decide)).1
      (by decide)⟩

/-- Adding finite zero is the identity on every JsFloat (NaN and the
infinities absorb it). -/
theorem jsAdd_fin_zero (a : JsFloat) : jsAdd a (.fin 0) = a := by
  cases a with
  | nan => rfl
  | inf n => rfl
  | fin q => simp [jsAdd]

/-- The skip-on-NaN fold equals the fold of per-row contributions in which a
failed parse contributes finite zero. -/
theorem totalSalesLoop_contrib (i : Nat) :
    ∀ (rows : List (List JStr)) (acc : JsFloat),
      rows.foldl (fun acc row =>
          let v := cellParse row i
          if jsIsNaN v then acc else jsAdd acc v) acc =
        (rows.map (fun row =>
          let v := cellParse row i
          if jsIsNaN v then JsFloat.fin 0 else v)).foldl jsAdd acc := by
  intro rows
  induction rows with
  | nil => intro acc; rfl
  | cons r rs ih =>
    intro acc
    simp only [List.foldl_cons, List.map_cons]
    rw [ih]
    congr 1
    dsimp only
    cases hv : jsIsNaN (cellParse r i)
    · simp [hv]
    · simp [hv, jsAdd_fin_zero]

/-- C8: aggregation sums the parse of each row's field at the selected index,
and a row whose field fails to parse (such as `N/A`) is silently skipped,
contributing zero without aborting the aggregation of the remaining rows; in
the concrete example the `N/A` row leaves 10 + 5 = 15. -/
theorem c8_aggregation_skips :
    (∀ (rows : List (List JStr)) (i : Nat),
      totalSalesLoop rows i =
        (rows.map (fun row =>
          let v := cellParse row i
          if jsIsNaN v then JsFloat.fin 0 else v)).foldl jsAdd (.fin 0)) ∧
    totalSalesLoop
        [["x".toList, "10".toList], ["y".toList, "N/A".toList], ["z".toList, "5".toList]] 1 =
      .fin 15 := by
  constructor
  · intro rows i
    unfold totalSalesLoop
    exact totalSalesLoop_contrib i rows (.fin 0)
  · decide

/-- `substring(1, length - 1)` on a field wrapped in a pair of quotes yields
the wrapped interior. -/
theorem jsSubstring_strip (mid : JStr) :
    jsSubstring ('"' :: mid ++ ['"']) 1 (('"' :: mid ++ ['"']).length - 1) = mid := by
  unfold jsSubstring
  dsimp only
  have hlen : ('"' :: mid ++ ['"']).length = mid.length + 2 := by simp
  rw [hlen]
  have h1 : min 1 (mid.length + 2) = 1 := by omega
  have h2 : min (mid.length + 2 - 1) (mid.length + 2) = mid.length + 1 := by omega
  rw [h1, h2]
  have h3 : min 1 (mid.length + 1) = 1 := by omega
  have h4 : max 1 (mid.length + 1) = mid.length + 1 := by omega
  rw [h3, h4]
  have h5 : mid.length + 1 - 1 = mid.length := by omega
  rw [h5]
  have h6 : List.drop 1 ('"' :: mid ++ ['"']) = mid ++ ['"'] := by simp
  rw [h6]
  exact List.take_left mid ['"']

/-- C9: after splitting, every field wrapped in a pair of double quotes has
its outer quotes stripped and each doubled internal quote collapsed, while any
field not so wrapped (including the one-character field consisting of a single
quote, for which `substring(1, 0)` swaps its arguments and returns the field)
passes through verbatim; the concrete field from the spec decodes as stated. -/
theorem c9_quote_unescaping :
    (∀ mid : JStr, unquoteField ('"' :: mid ++ ['"']) = collapseQuotes mid) ∧
    (∀ f : JStr, (¬ ∃ mid, f = '"' :: mid ++ ['"']) → unquoteField f = f) ∧
    unquoteField ("\"12\"\"3\"\"".toList) = "12\"3\"".toList := by
  refine ⟨?_, ?_, by decide⟩
  · intro mid
    unfold unquoteField
    have hpre : prefixOfB ['"'] ('"' :: mid ++ ['"']) = true := by simp [prefixOfB]
    have hsuf : suffixOfB ['"'] ('"' :: mid ++ ['"']) = true := by
      unfold suffixOfB
      rw [show ('"' :: mid ++ ['"']).reverse = '"' :: (mid.reverse ++ ['"']) from by simp]
      simp [prefixOfB]
    rw [hpre, hsuf]
    rw [if_pos (show (true && true) = true by rfl)]
    rw [jsSubstring_strip mid]
  · intro f hne
    cases hc : (prefixOfB ['"'] f && suffixOfB ['"'] f) with
    | false =>
      unfold unquoteField
      rw [hc]
      simp
    | true =>
      have hcs := Bool.and_eq_true_iff.mp hc
      have hf : f = ['"'] := by
        cases f with
        | nil => simp [prefixOfB] at hcs
        | cons x xs =>
          have hx : x = '"' := by
            have h1 := hcs.1
            simp [prefixOfB] at h1
            exact h1.symm
          rcases List.eq_nil_or_concat xs with hxs | ⟨ys, y, hys⟩
          · rw [hx, hxs]
          · rw [List.concat_eq_append] at hys
            exfalso
            have hy : y = '"' := by
              have h2 := hcs.2
              unfold suffixOfB at h2
              rw [hys] at h2
              rw [show (x :: (ys ++ [y])).reverse = y :: (ys.reverse ++ [x]) from by simp] at h2
              simp [prefixOfB] at h2
              exact h2.symm
            exact hne ⟨ys, by rw [hys, hx, hy]; simp⟩
      rw [hf]
      decide

/-- Witness for C9 on an unwrapped field. -/
theorem c9_witness :
    unquoteField ("ab".toList) = "ab".toList := by
  have h := c9_quote_unescaping
  exact h.2.1 ("ab".toList)
    (fun ⟨mid, hm⟩ => by injection hm with h1 h2; exact absurd h1 (by decide))

/-- C10: the tabular parser is total — for every input string it returns a
parsed table (with no more rows than nonblank lines) and never raises; within
the text-to-display pipeline the only failure mode is the no-sales-column
error of the later column-identification stage. -/
theorem c10_parse_total (text : JStr) :
    (∃ t : ParsedTable, parseCsv text = t) ∧
    (parseCsv text).rows.length ≤ (nonblankLines text).length ∧
    (∀ e, pipelineFromText text = .error e → e = .noSalesColumn) := by
  refine ⟨⟨parseCsv text, rfl⟩, ?_, ?_⟩
  · unfold parseCsv
    cases h : nonblankLines text with
    | nil => simp
    | cons l0 ls =>
      dsimp only
      cases hall : (parseLine (detectDelimiter l0) l0).all (fun cell => jsIsNaN (jsParseFloat cell)) with
      | true => simp
      | false => simp
  · intro e he
    unfold pipelineFromText at he
    dsimp only at he
    split at he
    · injection he with h1
      exact h1.symm
    · exact Except.noConfusion he

/-- Witness for C10 at a concrete input whose pipeline run does error. -/
theorem c10_witness :
    pipelineFromText ("x".toList) = .error .noSalesColumn ∧
      PipeErr.noSalesColumn = PipeErr.noSalesColumn :=
  ⟨by decide, (c10_parse_total ("x".toList)).2.2 .noSalesColumn (by decide)⟩

end SOS
